import Mathlib

set_option autoImplicit false

/-!
Verification of the per-room relay (`RebrowRelay` Durable Object,
`src/rebrow/src/relay.ts`) and the local peer's bash handler
(`src/pcr-local/src/index.ts`).

The relay's fields and methods are shallowly embedded: the JavaScript
`Map`s become association lists with `Map` semantics (insert replaces the
first entry in place or appends, delete filters, iteration follows list
order), machine-external calls (the Web Crypto SHA-256 digest, the
WebSocket `send`) become explicit parameters, and asynchronous RPCs are
modelled by passing the eventual reply (`Except`) to the function that
awaits it, returning the resulting value, the successor state, and the
list of wire messages dispatched to the peer.
-/

namespace Rebrow

/-- Auth record persisted per room (`RoomAuth` in `types.ts`). -/
structure RoomAuth where
  passphraseHash : String
  createdAt : Nat
deriving Repr, DecidableEq

/--
`validatePassphrase` (relay.ts 80–97), parameterised by the external
SHA-256 hex digest `hash` (computed by `crypto.subtle.digest`, which is
platform code). `stored` is the content of the durable `auth` storage key;
the result is the admission decision together with the storage after the
call (first call stores the digest, later calls leave storage alone).
-/
def validatePassphrase (hash : String → String) (stored : Option RoomAuth)
    (passphrase : String) (now : Nat) : Bool × Option RoomAuth :=
  match stored with
  | none => (true, some ⟨hash passphrase, now⟩)
  | some a => (hash passphrase == a.passphraseHash, some a)

/-- Which peers are currently accepted in the room (derived from the
hibernation tags `extension`, `local:*`, `mcp:*`). -/
structure ConnState where
  extensionConnected : Bool
  localConnected : Bool
  mcpClients : List String
deriving Repr, DecidableEq

/-- `handleExtensionUpgrade` (relay.ts 165–185): 409 on duplicate, else 101. -/
def handleExtensionUpgrade (conn : ConnState) : Nat :=
  if conn.extensionConnected then 409 else 101

/-- `handleLocalUpgrade` (relay.ts 212–232): 409 on duplicate, else 101. -/
def handleLocalUpgrade (conn : ConnState) : Nat :=
  if conn.localConnected then 409 else 101

/-- `handleMcpUpgrade` (relay.ts 190–207): 409 when the clientId is taken. -/
def handleMcpUpgrade (conn : ConnState) (clientId : String) : Nat :=
  if clientId ∈ conn.mcpClients then 409 else 101

/-- `url.pathname.split('/')[2] || 'default'` (relay.ts 148, 155). -/
def clientIdOf (path : String) : String :=
  let seg := (path.splitOn "/").getD 2 ""
  if seg = "" then "default" else seg

/--
The `fetch` entry point (relay.ts 102–160), restricted to the response
status code and the auth-storage side effect. `passphrase` models
`url.searchParams.get('passphrase')` (`none` = parameter absent); JS
truthiness makes the empty string count as absent.
-/
def fetch (hash : String → String) (auth : Option RoomAuth) (conn : ConnState)
    (path : String) (passphrase : Option String) (now : Nat) : Nat × Option RoomAuth :=
  let p := passphrase.getD ""
  if path = "/" ∨ path = "/health" then
    if p ≠ "" then
      let v := validatePassphrase hash auth p now
      if v.1 then (200, v.2) else (403, v.2)
    else (200, auth)
  else if path = "/extension/status" then (200, auth)
  else if path = "/local/status" then (200, auth)
  else if p = "" then (401, auth)
  else
    let v := validatePassphrase hash auth p now
    if !v.1 then (403, v.2)
    else if path = "/extension" then (handleExtensionUpgrade conn, v.2)
    else if path = "/local" ∨ path.startsWith "/local/" then (handleLocalUpgrade conn, v.2)
    else if path = "/mcp" ∨ path.startsWith "/mcp/" then (handleMcpUpgrade conn (clientIdOf path), v.2)
    else (404, v.2)

/--
Outer deadline passed by `executeBash` to `sendToLocalClient`
(relay.ts 832–845): `options?.timeout ? options.timeout + 5000 : 30000`.
`none` models an absent timeout; a present `0` is falsy in JS.
-/
def executeBashDeadline : Option Nat → Nat
  | some t => if t ≠ 0 then t + 5000 else 30000
  | none => 30000

/--
Effective command timeout applied by the local peer
(`handleBashExecute`, pcr-local `index.ts` 269–289): `params.timeout || 30000`.
-/
def localBashTimeout : Option Nat → Nat
  | some t => if t ≠ 0 then t else 30000
  | none => 30000

end Rebrow

namespace Rebrow

/-- C1: the first `validatePassphrase` call on a fresh room stores the
digest of `p` and admits; a later call with `q` is admitted iff the digest
of `q` equals the stored digest, a mismatch is answered with HTTP 403 by
`fetch` (on every endpoint that checks the passphrase, i.e. everything but
the two status endpoints), and the stored record is never changed once
set. -/
theorem validatePassphrase_first_sets_then_compares
    (hash : String → String) (p q : String) (a : RoomAuth) (now now₂ : Nat) :
    validatePassphrase hash none p now = (true, some ⟨hash p, now⟩)
    ∧ ((validatePassphrase hash (some a) q now₂).1 = true ↔ hash q = a.passphraseHash)
    ∧ (validatePassphrase hash (some a) q now₂).2 = some a
    ∧ (∀ conn path, ¬(path = "/extension/status" ∨ path = "/local/status") →
        q ≠ "" → hash q ≠ a.passphraseHash →
        (fetch hash (some a) conn path (some q) now₂).1 = 403) := by
  refine ⟨rfl, ?_, rfl, ?_⟩
  · simp [validatePassphrase]
  · intro conn path hpath hq hne
    have hv : validatePassphrase hash (some a) q now₂ = (false, some a) := by
      simp [validatePassphrase, hne]
    by_cases hph : path = "/" ∨ path = "/health"
    · simp [fetch, hph, hq, hv]
    · have h1 : path ≠ "/extension/status" := fun h => hpath (Or.inl h)
      have h2 : path ≠ "/local/status" := fun h => hpath (Or.inr h)
      simp [fetch, hph, h1, h2, hq, hv]

/-- Witness for C1 at concrete inputs. -/
theorem validatePassphrase_first_sets_then_compares_witness :
    ((¬("/extension" = "/extension/status" ∨ "/extension" = "/local/status")) ∧
      "q" ≠ "" ∧ (fun s => s) "q" ≠ "hp") ∧
    (fetch (fun s => s) (some ⟨"hp", 0⟩) ⟨false, false, []⟩ "/extension" (some "q") 7).1 = 403 :=
  ⟨⟨by decide, by decide, by decide⟩,
    (validatePassphrase_first_sets_then_compares (fun s => s) "p" "q" ⟨"hp", 0⟩ 0 7).2.2.2
      ⟨false, false, []⟩ "/extension" (by decide) (by decide) (by decide)⟩

/-- C7 counterexample: a request to `/extension/status` (and to
`/local/status`) carrying no passphrase is answered 200, not 401 — these
two introspection endpoints are served before the passphrase check. -/
theorem status_endpoints_skip_auth :
    (fetch (fun s => s) none ⟨false, false, []⟩ "/extension/status" none 0).1 = 200
    ∧ (fetch (fun s => s) none ⟨true, true, ["a"]⟩ "/local/status" none 0).1 = 200
    ∧ (fetch (fun s => s) none ⟨false, false, []⟩ "/extension/status" none 0).1 ≠ 401 := by
  refine ⟨rfl, rfl, by decide⟩

/-- C7 amended: every room-scoped endpoint other than the health endpoint
(`/`, `/health`) and the two introspection endpoints `/extension/status`
and `/local/status` answers 401 when the passphrase is absent (or empty,
which JS truthiness treats as absent); the two introspection endpoints
answer 200 without any passphrase. -/
theorem fetch_requires_passphrase
    (hash : String → String) (auth : Option RoomAuth) (conn : ConnState)
    (path : String) (now : Nat)
    (h0 : ¬(path = "/" ∨ path = "/health"))
    (h1 : path ≠ "/extension/status") (h2 : path ≠ "/local/status") :
    (fetch hash auth conn path none now).1 = 401
    ∧ (fetch hash auth conn path (some "") now).1 = 401
    ∧ (fetch hash auth conn "/extension/status" none now).1 = 200
    ∧ (fetch hash auth conn "/local/status" none now).1 = 200 := by
  refine ⟨?_, ?_, rfl, rfl⟩ <;> simp [fetch, h0, h1, h2]

/-- Witness for the amended C7 at a concrete endpoint. -/
theorem fetch_requires_passphrase_witness :
    (fetch (fun s => s) none ⟨false, false, []⟩ "/mcp" none 0).1 = 401 :=
  (fetch_requires_passphrase (fun s => s) none ⟨false, false, []⟩ "/mcp" 0
    (by decide) (by decide) (by decide)).1

/-- C9 counterexample: when the command timeout is left to its default,
the outer RPC deadline of `bash.execute` is 30000 ms while the local
peer's default command timeout is also 30000 ms — the deadline is not
"default command timeout + 5000". -/
theorem executeBashDeadline_default_no_slack :
    executeBashDeadline none = 30000
    ∧ localBashTimeout none = 30000
    ∧ executeBashDeadline none ≠ localBashTimeout none + 5000 := by
  refine ⟨rfl, rfl, by decide⟩

/-- C9 amended: with an explicit non-zero command timeout `t` the outer
deadline of the dispatched `bash.execute` RPC is `t + 5000` ms (the
effective command timeout plus 5 s of slack); with the timeout absent (or
an explicit `0`, falsy in JS) the outer deadline is the flat default
30000 ms, equal to the local peer's default command timeout with no
slack. -/
theorem executeBashDeadline_spec (t : Nat) (ht : t ≠ 0) :
    executeBashDeadline (some t) = localBashTimeout (some t) + 5000
    ∧ executeBashDeadline none = 30000
    ∧ executeBashDeadline (some 0) = 30000
    ∧ localBashTimeout none = 30000 := by
  refine ⟨?_, rfl, rfl, rfl⟩
  simp [executeBashDeadline, localBashTimeout, ht]

/-- Witness for the amended C9 at `t = 10000`. -/
theorem executeBashDeadline_spec_witness :
    executeBashDeadline (some 10000) = localBashTimeout (some 10000) + 5000 :=
  (executeBashDeadline_spec 10000 (by decide)).1

end Rebrow

namespace Rebrow

/-- JS `Map.set`: replace the first entry with this key in place, or
append a fresh entry at the end. -/
def mapSet {α : Type} (k : String) (v : α) : List (String × α) → List (String × α)
  | [] => [(k, v)]
  | (k₁, v₁) :: rest =>
    if k₁ = k then (k₁, v) :: rest else (k₁, v₁) :: mapSet k v rest

/-- JS `Map.get`: the value of the first entry with this key, if any. -/
def mapGet {α : Type} (k : String) : List (String × α) → Option α
  | [] => none
  | (k₁, v) :: rest => if k₁ = k then some v else mapGet k rest

/-- A wire command dispatched to the local peer (`LocalCommand` in
`types.ts`; `expectedMtime` is always supplied by the relay's
`writeFile`). -/
inductive LocalCmd where
  | fileRead (id : Nat) (path : String)
  | fileWrite (id : Nat) (path : String) (content : String) (expectedMtime : Nat)
  | bashExecute (id : Nat) (command : String) (workdir : Option String) (timeout : Option Nat)
deriving Repr, DecidableEq

/-- The relay fields touched by the local-peer RPC helpers:
`fileReadTimestamps` (the read-time ledger), `localMessageId` (correlation
id counter), and `pendingLocalRequests` (here just the resident ids; the
resolver closures carry no observable state). -/
structure LocalPeerState where
  fileReadTimestamps : List (String × Nat)
  localMessageId : Nat
  pendingLocalRequests : List Nat
deriving Repr, DecidableEq

/--
`readFile` (relay.ts 793–803), with the asynchronous round trip through
`sendToLocalClient` (relay.ts 760–788) made explicit: `reply` is the local
peer's eventual answer to the dispatched `file.read` (`.ok (content,
mtime)` for a success reply, `.error e` for an error reply or the timeout
rejection). The result is (returned value, state after completion,
messages dispatched to the local peer). `sendToLocalClient` allocates
`++this.localMessageId`, inserts the pending entry, and the completion
paths all delete it again, so after completion the pending table is back
to its pre-call content.
-/
def readFile (st : LocalPeerState) (path : String)
    (reply : Except String (String × Nat)) :
    Except String (String × Nat) × LocalPeerState × List LocalCmd :=
  let id := st.localMessageId + 1
  let st₁ := { st with localMessageId := id }
  match reply with
  | .error e => (.error e, st₁, [.fileRead id path])
  | .ok (content, mtime) =>
      (.ok (content, mtime),
        { st₁ with fileReadTimestamps := mapSet path mtime st₁.fileReadTimestamps },
        [.fileRead id path])

/--
`writeFile` (relay.ts 808–827): fails synchronously when the ledger has no
entry for `path`; otherwise dispatches `file.write` with `expectedMtime`
taken from the ledger and, on a success reply carrying the new mtime,
updates the ledger to it. As in `readFile`, `reply` is the local peer's
eventual answer and the dispatched-message list is returned.
-/
def writeFile (st : LocalPeerState) (path content : String)
    (reply : Except String Nat) :
    Except String Nat × LocalPeerState × List LocalCmd :=
  match mapGet path st.fileReadTimestamps with
  | none =>
      (.error ("Cannot write to " ++ path ++
        ": file has not been read yet. Read the file first to ensure you have the latest content."),
        st, [])
  | some lastReadMtime =>
      let id := st.localMessageId + 1
      let st₁ := { st with localMessageId := id }
      match reply with
      | .error e => (.error e, st₁, [.fileWrite id path content lastReadMtime])
      | .ok mtime =>
          (.ok mtime,
            { st₁ with fileReadTimestamps := mapSet path mtime st₁.fileReadTimestamps },
            [.fileWrite id path content lastReadMtime])

theorem mapGet_mapSet_self {α : Type} (k : String) (v : α) (l : List (String × α)) :
    mapGet k (mapSet k v l) = some v := by
  induction l with
  | nil => simp [mapSet, mapGet]
  | cons hd tl ih =>
    by_cases h : hd.1 = k
    · simp [mapSet, mapGet, h]
    · simpa [mapSet, mapGet, h] using ih

theorem mapGet_mapSet_ne {α : Type} (k k₁ : String) (v : α) (l : List (String × α))
    (h : k₁ ≠ k) : mapGet k₁ (mapSet k v l) = mapGet k₁ l := by
  induction l with
  | nil => simp [mapSet, mapGet, Ne.symm h]
  | cons hd tl ih =>
    by_cases hh : hd.1 = k
    · simp [mapSet, mapGet, hh, Ne.symm h]
    · by_cases hk : hd.1 = k₁
      · simp [mapSet, mapGet, hh, hk, h]
      · simpa [mapSet, mapGet, hh, hk] using ih

theorem readFile_ok_state (st : LocalPeerState) (p content : String) (m : Nat) :
    (readFile st p (.ok (content, m))).2.1 =
      { st with fileReadTimestamps := mapSet p m st.fileReadTimestamps,
                localMessageId := st.localMessageId + 1 } := rfl

theorem writeFile_dispatch (st : LocalPeerState) (p c : String) (m : Nat)
    (r : Except String Nat) (h : mapGet p st.fileReadTimestamps = some m) :
    (writeFile st p c r).2.2 = [.fileWrite (st.localMessageId + 1) p c m] := by
  cases r <;> simp [writeFile, h]

theorem writeFile_ok_state (st : LocalPeerState) (p c : String) (m m₂ : Nat)
    (h : mapGet p st.fileReadTimestamps = some m) :
    (writeFile st p c (.ok m₂)).2.1 =
      { st with fileReadTimestamps := mapSet p m₂ st.fileReadTimestamps,
                localMessageId := st.localMessageId + 1 } := by
  simp [writeFile, h]

theorem writeFile_error_state (st : LocalPeerState) (p c e : String) (m : Nat)
    (h : mapGet p st.fileReadTimestamps = some m) :
    (writeFile st p c (.error e)).2.1 = { st with localMessageId := st.localMessageId + 1 } := by
  simp [writeFile, h]

end Rebrow

namespace Rebrow

/-- C2: when the read-time ledger has no entry for `p`, `writeFile p c`
fails with exactly the message
`Cannot write to {p}: file has not been read yet. Read the file first to
ensure you have the latest content.`, dispatches nothing to the local
peer, and leaves the whole state — in particular the ledger and the
pending-request table — unchanged. -/
theorem writeFile_unread_fails_before_dispatch
    (st : LocalPeerState) (p c : String) (reply : Except String Nat)
    (h : mapGet p st.fileReadTimestamps = none) :
    (writeFile st p c reply).1 =
      .error ("Cannot write to " ++ p ++
        ": file has not been read yet. Read the file first to ensure you have the latest content.")
    ∧ (writeFile st p c reply).2.1 = st
    ∧ (writeFile st p c reply).2.2 = [] := by
  simp [writeFile, h]

/-- Witness for C2 on a concrete empty-ledger state. -/
theorem writeFile_unread_fails_before_dispatch_witness :
    (writeFile ⟨[], 0, []⟩ "/tmp/x" "hi" (.ok 5)).2.2 = [] :=
  (writeFile_unread_fails_before_dispatch ⟨[], 0, []⟩ "/tmp/x" "hi" (.ok 5) (by decide)).2.2

/-- C3: a successful `file.read p` returning mtime `m` sets the ledger
entry for `p` to `m`; the next `writeFile p c` dispatches `file.write`
with `expectedMtime = m`; when its success reply carries mtime `m₂` the
ledger entry becomes `m₂`, so a further `writeFile p c₂` dispatches
`expectedMtime = m₂`. -/
theorem readFile_writeFile_mtime_chain
    (st : LocalPeerState) (p content c c₂ : String) (m m₂ : Nat)
    (r₂ : Except String Nat) :
    mapGet p (readFile st p (.ok (content, m))).2.1.fileReadTimestamps = some m
    ∧ (writeFile (readFile st p (.ok (content, m))).2.1 p c (.ok m₂)).2.2 =
        [.fileWrite (st.localMessageId + 2) p c m]
    ∧ mapGet p (writeFile (readFile st p (.ok (content, m))).2.1 p c (.ok m₂)).2.1.fileReadTimestamps
        = some m₂
    ∧ (writeFile
        (writeFile (readFile st p (.ok (content, m))).2.1 p c (.ok m₂)).2.1
        p c₂ r₂).2.2 =
        [.fileWrite (st.localMessageId + 3) p c₂ m₂] := by
  have h₁ : mapGet p (readFile st p (.ok (content, m))).2.1.fileReadTimestamps = some m := by
    rw [readFile_ok_state]
    exact mapGet_mapSet_self p m st.fileReadTimestamps
  have hw := writeFile_ok_state (readFile st p (.ok (content, m))).2.1 p c m m₂ h₁
  have h₂ : mapGet p (writeFile (readFile st p (.ok (content, m))).2.1 p c
      (.ok m₂)).2.1.fileReadTimestamps = some m₂ := by
    rw [hw]
    exact mapGet_mapSet_self p m₂ _
  refine ⟨h₁, ?_, h₂, ?_⟩
  · rw [writeFile_dispatch _ p c m (.ok m₂) h₁, readFile_ok_state]
  · rw [writeFile_dispatch _ p c₂ m₂ r₂ h₂, hw, readFile_ok_state]

/-- C10: when the ledger holds `m` for `p` and the dispatched `file.write`
fails (error reply from the local peer, or the deadline rejection — both
reach `writeFile` as a rejected promise), `writeFile` propagates that
error, the ledger entry for `p` still holds the pre-write mtime `m`, the
pending table is back to its pre-call content, and a retried write
dispatches the same `expectedMtime = m`. -/
theorem writeFile_error_keeps_ledger
    (st : LocalPeerState) (p c c₂ : String) (m : Nat) (e : String)
    (r₂ : Except String Nat)
    (h : mapGet p st.fileReadTimestamps = some m) :
    (writeFile st p c (.error e)).1 = .error e
    ∧ (writeFile st p c (.error e)).2.2 = [.fileWrite (st.localMessageId + 1) p c m]
    ∧ (writeFile st p c (.error e)).2.1.fileReadTimestamps = st.fileReadTimestamps
    ∧ (writeFile st p c (.error e)).2.1.pendingLocalRequests = st.pendingLocalRequests
    ∧ (writeFile (writeFile st p c (.error e)).2.1 p c₂ r₂).2.2 =
        [.fileWrite (st.localMessageId + 2) p c₂ m] := by
  have hs := writeFile_error_state st p c e m h
  have h₁ : mapGet p (writeFile st p c (.error e)).2.1.fileReadTimestamps = some m := by
    rw [hs]; exact h
  refine ⟨by simp [writeFile, h], writeFile_dispatch st p c m (.error e) h,
    by rw [hs], by rw [hs], ?_⟩
  rw [writeFile_dispatch _ p c₂ m r₂ h₁, hs]

/-- Witness for C10 on a concrete one-entry ledger. -/
theorem writeFile_error_keeps_ledger_witness :
    (writeFile ⟨[("/tmp/x", 100)], 0, []⟩ "/tmp/x" "new" (.error "boom")).2.2 =
      [.fileWrite 1 "/tmp/x" "new" 100] :=
  (writeFile_error_keeps_ledger ⟨[("/tmp/x", 100)], 0, []⟩ "/tmp/x" "new" "again" 100
    "boom" (.ok 3) (by decide)).2.1

end Rebrow


namespace Rebrow

/--
One RPC multiplexer of the room: the correlation-id counter together with
the ids resident in the pending-request table. This embeds both
multiplexers, which share the same allocation discipline: `messageId` /
`pendingRequests` in `sendToExtension` (relay.ts 607–652) and
`localMessageId` / `pendingLocalRequests` in `sendToLocalClient`
(relay.ts 760–788). Both allocate `++this.messageId` and insert the
pending entry under the fresh id.
-/
structure Mux where
  messageId : Nat
  pending : List Nat
deriving Repr, DecidableEq

/-- The events that touch a multiplexer over the life of the room:
`send` (dispatch of a fresh RPC), `complete id` (a matching response
arrives or the deadline fires — both `Map.delete` the id), and `clear`
(the backing peer disconnects: `cleanupExtensionState` /
`cleanupLocalState` reject everything and clear the table, leaving the
counter alone). -/
inductive MuxOp where
  | send
  | complete (id : Nat)
  | clear
deriving Repr, DecidableEq

/-- Effect of one operation: successor state plus the dispatched id, if
the operation dispatched one. -/
def Mux.step : Mux → MuxOp → Mux × Option Nat
  | m, .send =>
    ({ messageId := m.messageId + 1, pending := m.pending ++ [m.messageId + 1] },
      some (m.messageId + 1))
  | m, .complete id => ({ m with pending := m.pending.erase id }, none)
  | m, .clear => ({ m with pending := [] }, none)

def Mux.run : Mux → List MuxOp → Mux
  | m, [] => m
  | m, op :: ops => Mux.run (m.step op).1 ops

/-- The ids dispatched along a sequence of operations, in dispatch order. -/
def Mux.dispatched : Mux → List MuxOp → List Nat
  | _, [] => []
  | m, op :: ops =>
    match m.step op with
    | (m₂, some id) => id :: Mux.dispatched m₂ ops
    | (m₂, none) => Mux.dispatched m₂ ops

/-- A room starts with `messageId = 0` and empty tables (relay.ts 40–66). -/
def Mux.init : Mux := ⟨0, []⟩

/-- Every id in the pending table is bounded by the counter. -/
def Mux.Bounded (m : Mux) : Prop := ∀ i ∈ m.pending, i ≤ m.messageId

theorem Mux.step_bounded (m : Mux) (op : MuxOp) (h : m.Bounded) :
    (m.step op).1.Bounded := by
  cases op with
  | send =>
    dsimp only [Mux.step]
    intro i hi
    rcases List.mem_append.mp hi with hi | hi
    · exact le_trans (h i hi) (Nat.le_succ _)
    · simp only [List.mem_singleton] at hi
      subst hi
      exact le_rfl
  | complete id => exact fun i hi => h i (List.mem_of_mem_erase hi)
  | clear => intro i hi; simp [Mux.step] at hi

theorem Mux.step_nodup (m : Mux) (op : MuxOp) (hb : m.Bounded)
    (h : m.pending.Nodup) : (m.step op).1.pending.Nodup := by
  cases op with
  | send =>
    refine List.nodup_append.mpr ⟨h, List.nodup_singleton _, ?_⟩
    intro i hi hmem
    simp only [List.mem_singleton] at hmem
    have := hb i hi
    omega
  | complete id => exact h.erase id
  | clear => exact List.nodup_nil

theorem Mux.run_bounded_nodup (ops : List MuxOp) :
    ∀ m : Mux, m.Bounded → m.pending.Nodup →
      (Mux.run m ops).Bounded ∧ (Mux.run m ops).pending.Nodup := by
  induction ops with
  | nil => exact fun m hb hn => ⟨hb, hn⟩
  | cons op ops ih =>
    intro m hb hn
    exact ih _ (Mux.step_bounded m op hb) (Mux.step_nodup m op hb hn)

theorem Mux.dispatched_gt_chain (ops : List MuxOp) :
    ∀ m : Mux, (∀ i ∈ Mux.dispatched m ops, m.messageId < i)
      ∧ (Mux.dispatched m ops).Chain' (· < ·) := by
  induction ops with
  | nil => intro m; simp [Mux.dispatched]
  | cons op ops ih =>
    intro m
    cases op with
    | send =>
      have hd : Mux.dispatched m (.send :: ops) =
          (m.messageId + 1) ::
            Mux.dispatched ⟨m.messageId + 1, m.pending ++ [m.messageId + 1]⟩ ops := rfl
      obtain ⟨ihgt, ihch⟩ := ih ⟨m.messageId + 1, m.pending ++ [m.messageId + 1]⟩
      constructor
      · intro i hi
        rw [hd] at hi
        rcases List.mem_cons.mp hi with hi | hi
        · omega
        · have h2 : m.messageId + 1 < i := ihgt i hi
          omega
      · rw [hd]
        refine List.chain'_cons'.mpr ⟨?_, ihch⟩
        intro b hb
        exact ihgt b (List.mem_of_mem_head? hb)
    | complete id =>
      have hd : Mux.dispatched m (.complete id :: ops) =
          Mux.dispatched ⟨m.messageId, m.pending.erase id⟩ ops := rfl
      obtain ⟨ihgt, ihch⟩ := ih ⟨m.messageId, m.pending.erase id⟩
      exact ⟨by rw [hd]; exact ihgt, by rw [hd]; exact ihch⟩
    | clear =>
      have hd : Mux.dispatched m (.clear :: ops) =
          Mux.dispatched ⟨m.messageId, []⟩ ops := rfl
      obtain ⟨ihgt, ihch⟩ := ih ⟨m.messageId, []⟩
      exact ⟨by rw [hd]; exact ihgt, by rw [hd]; exact ihch⟩

end Rebrow

namespace Rebrow

/-- C6: along any sequence of multiplexer operations from a fresh room —
dispatches, completions, and peer-disconnect cleanups (which clear the
pending table but never reset the counter) — the dispatched correlation
ids are strictly increasing in dispatch order, and after any such
sequence the ids in the pending-request table are pairwise distinct.
This covers both multiplexers (`messageId` / `pendingRequests` and
`localMessageId` / `pendingLocalRequests`), which share the embedded
allocation discipline. -/
theorem mux_ids_monotone_and_unique (ops : List MuxOp) :
    (Mux.dispatched Mux.init ops).Chain' (· < ·)
    ∧ (Mux.run Mux.init ops).pending.Nodup :=
  ⟨(Mux.dispatched_gt_chain ops Mux.init).2,
    (Mux.run_bounded_nodup ops Mux.init (fun i hi => by simp [Mux.init] at hi)
      List.nodup_nil).2⟩

end Rebrow

namespace Rebrow

/-- `TargetInfo` from `types.ts` (CDP target description). -/
structure TargetInfo where
  targetId : String
  type : String
  title : String
  url : String
  attached : Option Bool
  browserContextId : Option String
deriving Repr, DecidableEq

/-- `ConnectedTarget` from `types.ts`. -/
structure ConnectedTarget where
  sessionId : String
  targetId : String
  targetInfo : TargetInfo
deriving Repr, DecidableEq

/-- The target registry `connectedTargets : Map<string, ConnectedTarget>`,
keyed by sessionId, in `Map` iteration (insertion) order. -/
abbrev Registry := List (String × ConnectedTarget)

/-- JS `Map.delete`. -/
def mapDelete {α : Type} (k : String) : List (String × α) → List (String × α)
  | [] => []
  | (k₁, v) :: rest => if k₁ = k then mapDelete k rest else (k₁, v) :: mapDelete k rest

/-- The `Target.targetInfoChanged` loop (relay.ts 365–370): walk the
registry in iteration order, replace the info of the first target whose
`targetId` matches, and `break`. -/
def updateInfoFirst (info : TargetInfo) : Registry → Registry
  | [] => []
  | (k, t) :: rest =>
    if t.targetId = info.targetId then (k, { t with targetInfo := info }) :: rest
    else (k, t) :: updateInfoFirst info rest

/-- In-place mutation of the value found under key `k` (the
`Page.frameNavigated` branch assigns to the object returned by
`Map.get`). -/
def updateAt (k : String) (f : ConnectedTarget → ConnectedTarget) : Registry → Registry
  | [] => []
  | (k₁, t) :: rest => if k₁ = k then (k₁, f t) :: rest else (k₁, t) :: updateAt k f rest

/-- JS truthiness of an optional string (`undefined` and `""` are falsy). -/
def strTruthy : Option String → Bool
  | none => false
  | some s => s != ""

/-- JS `a || b` on an optional string: the string when present and
non-empty, the fallback otherwise (`frame.name || target.targetInfo.title`). -/
def jsOr (s : Option String) (fallback : String) : String :=
  match s with
  | some n => if n = "" then fallback else n
  | none => fallback

/-- The browser-originated events relevant to the registry, as carried in
`forwardCDPEvent` envelopes; `other` stands for every CDP event the
bookkeeping ignores. For `frameNavigated`, `sessionId` is the envelope's
session id and the three remaining fields come from `params.frame`. -/
inductive BrowserEvent where
  | attachedToTarget (sessionId : String) (targetInfo : TargetInfo)
  | detachedFromTarget (sessionId : String)
  | targetInfoChanged (targetInfo : TargetInfo)
  | frameNavigated (sessionId : Option String) (frameUrl : String)
      (frameName : Option String) (frameParentId : Option String)
  | other (method : String)
deriving Repr, DecidableEq

/-- The registry bookkeeping performed by `handleExtensionMessage` for one
`forwardCDPEvent` (relay.ts 342–388). -/
def applyEvent (reg : Registry) : BrowserEvent → Registry
  | .attachedToTarget s info => mapSet s ⟨s, info.targetId, info⟩ reg
  | .detachedFromTarget s => mapDelete s reg
  | .targetInfoChanged info => updateInfoFirst info reg
  | .frameNavigated sid url name parentId =>
    if strTruthy sid && !strTruthy parentId then
      updateAt (sid.getD "") (fun t =>
        { t with targetInfo :=
          { t.targetInfo with url := url, title := jsOr name t.targetInfo.title } }) reg
    else reg
  | .other _ => reg

/-- One step of the spec-side "attached minus detached" set for a fixed
sessionId `s`: an attach of `s` puts it in, a detach takes it out. -/
def aliveStep (s : String) (alive : Bool) : BrowserEvent → Bool
  | .attachedToTarget s₁ _ => if s₁ = s then true else alive
  | .detachedFromTarget s₁ => if s₁ = s then false else alive
  | _ => alive

/-- Whether `s` is in the set "attached events minus detached events keyed
by sessionId" after the event list `es`. -/
def attachedMinusDetached (es : List BrowserEvent) (s : String) : Bool :=
  es.foldl (aliveStep s) false

theorem mapGet_mapSet {α : Type} (k s : String) (v : α) (l : List (String × α)) :
    mapGet s (mapSet k v l) = if s = k then some v else mapGet s l := by
  by_cases h : s = k
  · rw [if_pos h, h]; exact mapGet_mapSet_self k v l
  · rw [if_neg h]; exact mapGet_mapSet_ne k s v l h

theorem mapGet_mapDelete {α : Type} (k s : String) (l : List (String × α)) :
    mapGet s (mapDelete k l) = if s = k then none else mapGet s l := by
  induction l with
  | nil => simp [mapDelete, mapGet]
  | cons hd tl ih =>
    rcases hd with ⟨k₁, v⟩
    by_cases h : k₁ = k
    · subst h
      by_cases hs : s = k₁
      · subst hs; simp [mapDelete, mapGet, ih]
      · simp [mapDelete, mapGet, ih, hs, Ne.symm hs]
    · by_cases hk : k₁ = s
      · subst hk
        simp [mapDelete, mapGet, h]
      · simp [mapDelete, mapGet, h, hk, ih]

theorem mapGet_updateAt (k s : String) (f : ConnectedTarget → ConnectedTarget)
    (l : Registry) :
    mapGet s (updateAt k f l) = if s = k then (mapGet k l).map f else mapGet s l := by
  induction l with
  | nil => simp [updateAt, mapGet]
  | cons hd tl ih =>
    rcases hd with ⟨k₁, t⟩
    by_cases h : k₁ = k
    · subst h
      by_cases hs : s = k₁
      · subst hs; simp [updateAt, mapGet]
      · simp [updateAt, mapGet, hs, Ne.symm hs]
    · by_cases hk : k₁ = s
      · subst hk
        simp [updateAt, mapGet, h]
      · simp [updateAt, mapGet, h, hk, ih]

theorem mapGet_updateInfoFirst_isSome (info : TargetInfo) (l : Registry) (s : String) :
    (mapGet s (updateInfoFirst info l)).isSome = (mapGet s l).isSome := by
  induction l with
  | nil => simp [updateInfoFirst]
  | cons hd tl ih =>
    rcases hd with ⟨k, t⟩
    by_cases h : t.targetId = info.targetId
    · by_cases hs : k = s <;> simp [updateInfoFirst, mapGet, h, hs]
    · by_cases hs : k = s
      · simp [updateInfoFirst, mapGet, h, hs]
      · simpa [updateInfoFirst, mapGet, h, hs] using ih

theorem mapGet_mem {α : Type} (s : String) (l : List (String × α)) (v : α)
    (h : mapGet s l = some v) : v ∈ l.map Prod.snd := by
  induction l with
  | nil => simp [mapGet] at h
  | cons hd tl ih =>
    rcases hd with ⟨k, w⟩
    by_cases hs : k = s
    · simp only [mapGet, if_pos hs, Option.some.injEq] at h
      exact List.mem_map.mpr ⟨(k, w), List.mem_cons_self _ tl, h⟩
    · simp only [mapGet, if_neg hs] at h
      exact List.mem_cons_of_mem _ (ih h)

theorem mapGet_updateInfoFirst_nodup (info : TargetInfo) (l : Registry)
    (hnd : (l.map (fun p => p.2.targetId)).Nodup) (s : String) :
    mapGet s (updateInfoFirst info l) =
      (mapGet s l).map
        (fun t => if t.targetId = info.targetId then { t with targetInfo := info } else t) := by
  induction l with
  | nil => simp [updateInfoFirst, mapGet]
  | cons hd tl ih =>
    rcases hd with ⟨k, t⟩
    simp only [List.map_cons, List.nodup_cons] at hnd
    obtain ⟨hnotin, hnd₂⟩ := hnd
    by_cases h : t.targetId = info.targetId
    · by_cases hs : k = s
      · simp [updateInfoFirst, mapGet, h, hs]
      · simp only [updateInfoFirst, if_pos h, mapGet, if_neg hs]
        cases hv : mapGet s tl with
        | none => rfl
        | some v =>
          have hvmem := mapGet_mem s tl v hv
          have hvne : v.targetId ≠ info.targetId := by
            intro he
            apply hnotin
            obtain ⟨p, hp, hpe⟩ := List.mem_map.mp hvmem
            refine List.mem_map.mpr ⟨p, hp, ?_⟩
            show p.2.targetId = t.targetId
            rw [hpe, he, ← h]
          simp [hvne]
    · by_cases hs : k = s
      · simp [updateInfoFirst, mapGet, h, hs]
      · simp only [updateInfoFirst, if_neg h, mapGet, if_neg hs]
        exact ih hnd₂

end Rebrow

namespace Rebrow

theorem mapGet_isSome_foldl_applyEvent (es : List BrowserEvent) :
    ∀ (reg : Registry) (s : String),
      (mapGet s (es.foldl applyEvent reg)).isSome =
        es.foldl (aliveStep s) (mapGet s reg).isSome := by
  induction es with
  | nil => intro reg s; rfl
  | cons e es ih =>
    intro reg s
    rw [List.foldl_cons, List.foldl_cons, ih]
    have hstep : (mapGet s (applyEvent reg e)).isSome =
        aliveStep s (mapGet s reg).isSome e := by
      cases e with
      | attachedToTarget s₁ info =>
        rw [applyEvent, mapGet_mapSet]
        by_cases h : s = s₁
        · simp [aliveStep, h]
        · simp [aliveStep, h, Ne.symm h]
      | detachedFromTarget s₁ =>
        rw [applyEvent, mapGet_mapDelete]
        by_cases h : s = s₁
        · simp [aliveStep, h]
        · simp [aliveStep, h, Ne.symm h]
      | targetInfoChanged info =>
        rw [applyEvent, mapGet_updateInfoFirst_isSome]
        rfl
      | frameNavigated sid url name parentId =>
        rw [applyEvent]
        by_cases hc : strTruthy sid && !strTruthy parentId
        · rw [if_pos hc, mapGet_updateAt]
          by_cases h : s = sid.getD ""
          · simp [aliveStep, h]
          · simp [aliveStep, h]
        · rw [if_neg hc]
          rfl
      | other m => rfl
    rw [hstep]

end Rebrow

namespace Rebrow

/-- C4: the target registry mirrors the browser lifecycle. First, after
processing any list of browser-originated events from an empty room, a
sessionId has a registry entry exactly when it lies in the set "attached
events minus detached events keyed by sessionId". Second, the per-event
updates are exactly the claimed ones, characterised through `mapGet`:
`Target.attachedToTarget` inserts `{sessionId, targetId, info}` under its
sessionId; `Target.detachedFromTarget` removes the entry with that
sessionId; `Target.targetInfoChanged` (when registry targetIds are
pairwise distinct, so "the target whose targetId matches" is well defined)
replaces that target's info and nothing else; and `Page.frameNavigated`
carrying a session id and a top frame (no parentId) updates that target's
url and sets its title to the frame's name when non-empty, keeping the
existing title otherwise. -/
theorem targetRegistry_mirrors_lifecycle :
    (∀ (es : List BrowserEvent) (s : String),
      (mapGet s (es.foldl applyEvent ([] : Registry))).isSome = attachedMinusDetached es s)
    ∧ (∀ (reg : Registry) (s : String) (info : TargetInfo) (s₂ : String),
        mapGet s₂ (applyEvent reg (.attachedToTarget s info)) =
          if s₂ = s then some ⟨s, info.targetId, info⟩ else mapGet s₂ reg)
    ∧ (∀ (reg : Registry) (s s₂ : String),
        mapGet s₂ (applyEvent reg (.detachedFromTarget s)) =
          if s₂ = s then none else mapGet s₂ reg)
    ∧ (∀ (reg : Registry) (info : TargetInfo) (s₂ : String),
        (reg.map (fun p => p.2.targetId)).Nodup →
        mapGet s₂ (applyEvent reg (.targetInfoChanged info)) =
          (mapGet s₂ reg).map
            (fun t => if t.targetId = info.targetId then { t with targetInfo := info } else t))
    ∧ (∀ (reg : Registry) (s url : String) (name : Option String) (s₂ : String),
        s ≠ "" →
        mapGet s₂ (applyEvent reg (.frameNavigated (some s) url name none)) =
          if s₂ = s then
            (mapGet s reg).map (fun t =>
              { t with targetInfo :=
                { t.targetInfo with url := url, title := jsOr name t.targetInfo.title } })
          else mapGet s₂ reg) := by
  refine ⟨?_, ?_, ?_, ?_, ?_⟩
  · intro es s
    rw [mapGet_isSome_foldl_applyEvent es [] s]
    rfl
  · intro reg s info s₂
    rw [applyEvent, mapGet_mapSet]
  · intro reg s s₂
    rw [applyEvent, mapGet_mapDelete]
  · intro reg info s₂ hnd
    rw [applyEvent]
    exact mapGet_updateInfoFirst_nodup info reg hnd s₂
  · intro reg s url name s₂ hs
    rw [applyEvent]
    have hc : (strTruthy (some s) && !strTruthy (none : Option String)) = true := by
      simp [strTruthy, hs]
    rw [if_pos hc]
    simpa using mapGet_updateAt s s₂ _ reg

/-- A one-target registry used to exercise C4 at concrete inputs. -/
def sampleReg : Registry := [("s1", ⟨"s1", "t1", ⟨"t1", "page", "A", "/a", none, none⟩⟩)]

/-- A replacement target description used to exercise C4. -/
def sampleInfoB : TargetInfo := ⟨"t1", "page", "B", "/b", none, none⟩

/-- Witness for C4: the `targetInfoChanged` and `frameNavigated` branches
applied to a concrete one-target registry. -/
theorem targetRegistry_mirrors_lifecycle_witness :
    mapGet "s1" (applyEvent sampleReg (.targetInfoChanged sampleInfoB)) =
      (mapGet "s1" sampleReg).map
        (fun t => if t.targetId = sampleInfoB.targetId
          then { t with targetInfo := sampleInfoB } else t)
    ∧ mapGet "s1" (applyEvent sampleReg (.frameNavigated (some "s1") "/a2" none none)) =
      (if "s1" = "s1" then
        (mapGet "s1" sampleReg).map
          (fun t => { t with targetInfo :=
            { t.targetInfo with url := "/a2", title := jsOr none t.targetInfo.title } })
      else mapGet "s1" sampleReg) := by
  refine ⟨?_, ?_⟩
  · exact targetRegistry_mirrors_lifecycle.2.2.2.1 sampleReg sampleInfoB "s1" (by decide)
  · exact targetRegistry_mirrors_lifecycle.2.2.2.2 sampleReg "s1" "/a2" none "s1" (by decide)

end Rebrow

namespace Rebrow

/-- The per-room mutable state of the Durable Object (relay.ts 37–66),
restricted to the fields the teardown claims observe. Pending browser
requests keep their id and `mcpClientId`; pending local requests keep
their id. -/
structure RoomState where
  connectedTargets : Registry
  pendingRequests : List (Nat × String)
  pendingLocalRequests : List Nat
  fileReadTimestamps : List (String × Nat)
  messageId : Nat
  localMessageId : Nat
deriving Repr, DecidableEq

/-- Observable actions emitted during teardown: rejecting a pending RPC
with an error message, and closing a peer socket with a code and reason. -/
inductive Effect where
  | rejectPending (id : Nat) (message : String)
  | closeSocket (clientId : String) (code : Nat) (reason : String)
deriving Repr, DecidableEq

/-- `cleanupExtensionState` (relay.ts 709–715): clear the target registry,
reject every pending browser RPC with "Extension connection closed", and
clear the pending table. -/
def cleanupExtensionState (st : RoomState) : RoomState × List Effect :=
  ({ st with connectedTargets := [], pendingRequests := [] },
    st.pendingRequests.map (fun pr => .rejectPending pr.1 "Extension connection closed"))

/-- The extension branch of `webSocketClose` (relay.ts 274–281): run
`cleanupExtensionState`, then close every MCP (agent) socket with code
1000 and reason "Extension disconnected". `mcpClients` is the list of
agent clientIds returned by `getMcpWebSockets()`. -/
def webSocketCloseExtension (st : RoomState) (mcpClients : List String) :
    RoomState × List Effect :=
  let c := cleanupExtensionState st
  (c.1, c.2 ++ mcpClients.map (fun id => .closeSocket id 1000 "Extension disconnected"))

/-- `broadcastToMcpClients` iterates the agent sockets at fan-out start;
`sendFails` records whether `ws.send` throws for this socket (e.g. it is
already closed). -/
structure McpSocket where
  clientId : String
  sendFails : Bool
deriving Repr, DecidableEq

/-- `broadcastToMcpClients` (relay.ts 657–662): `for (const ws of ...)
ws.send(message)`. The loop body has no try/catch, so a throwing send
aborts the remaining iterations and the error propagates. Returns the
clients that received the event and the client whose send threw, if
any. -/
def broadcastToMcpClients : List McpSocket → List String × Option String
  | [] => ([], none)
  | ws :: rest =>
    if ws.sendFails then ([], some ws.clientId)
    else
      let r := broadcastToMcpClients rest
      (ws.clientId :: r.1, r.2)

end Rebrow

namespace Rebrow

/-- C5: when the browser peer's socket closes, the room clears the target
registry and the pending browser-RPC table, emits a rejection with
"Extension connection closed" for every pending browser RPC, emits a
close with code 1000 and reason "Extension disconnected" for every agent
socket, and leaves the read-time ledger and the pending local-RPC table
untouched. -/
theorem webSocketClose_extension_teardown (st : RoomState) (mcps : List String) :
    (webSocketCloseExtension st mcps).1.connectedTargets = []
    ∧ (webSocketCloseExtension st mcps).1.pendingRequests = []
    ∧ (∀ pr ∈ st.pendingRequests,
        Effect.rejectPending pr.1 "Extension connection closed"
          ∈ (webSocketCloseExtension st mcps).2)
    ∧ (∀ c ∈ mcps,
        Effect.closeSocket c 1000 "Extension disconnected"
          ∈ (webSocketCloseExtension st mcps).2)
    ∧ (webSocketCloseExtension st mcps).1.fileReadTimestamps = st.fileReadTimestamps
    ∧ (webSocketCloseExtension st mcps).1.pendingLocalRequests = st.pendingLocalRequests := by
  refine ⟨rfl, rfl, ?_, ?_, rfl, rfl⟩
  · intro pr h
    exact List.mem_append.mpr (Or.inl (List.mem_map.mpr ⟨pr, h, rfl⟩))
  · intro c h
    exact List.mem_append.mpr (Or.inr (List.mem_map.mpr ⟨c, h, rfl⟩))

/-- A concrete room with one pending browser RPC, one pending local RPC
and one ledger entry, used to exercise C5. -/
def sampleRoom : RoomState := ⟨sampleReg, [(1, "m")], [2], [("/tmp/x", 5)], 1, 2⟩

/-- Witness for C5 on `sampleRoom` with one connected agent. -/
theorem webSocketClose_extension_teardown_witness :
    Effect.rejectPending 1 "Extension connection closed"
      ∈ (webSocketCloseExtension sampleRoom ["a"]).2
    ∧ Effect.closeSocket "a" 1000 "Extension disconnected"
      ∈ (webSocketCloseExtension sampleRoom ["a"]).2 :=
  ⟨(webSocketClose_extension_teardown sampleRoom ["a"]).2.2.1 (1, "m") (by decide),
    (webSocketClose_extension_teardown sampleRoom ["a"]).2.2.2.1 "a" (by decide)⟩

/-- C8 counterexample: with two agent sockets where the first send throws
(its socket is closed) and the second would succeed, the second agent does
not receive the event — the failure is not isolated, the loop aborts. -/
theorem broadcast_failure_not_isolated :
    (broadcastToMcpClients [⟨"a", true⟩, ⟨"b", false⟩]).1 = []
    ∧ ([⟨"a", true⟩, ⟨"b", false⟩] : List McpSocket).map McpSocket.sendFails = [true, false]
    ∧ "b" ∉ (broadcastToMcpClients [⟨"a", true⟩, ⟨"b", false⟩]).1 := by
  refine ⟨rfl, rfl, by decide⟩

/-- C8 amended: the broadcaster delivers the event to the agents in
registry order up to, but not including, the first agent whose send fails;
that agent and every later one receive nothing, because the send error
propagates out of the loop. In particular, when no send fails every agent
in the registry at fan-out start receives the event, in order. -/
theorem broadcast_delivers_until_first_failure (socks : List McpSocket) :
    (broadcastToMcpClients socks).1 =
      (socks.takeWhile (fun ws => !ws.sendFails)).map McpSocket.clientId
    ∧ ((∀ ws ∈ socks, ws.sendFails = false) →
        (broadcastToMcpClients socks).1 = socks.map McpSocket.clientId) := by
  constructor
  · induction socks with
    | nil => rfl
    | cons ws rest ih =>
      by_cases h : ws.sendFails
      · simp [broadcastToMcpClients, h, List.takeWhile_cons]
      · simp [broadcastToMcpClients, h, List.takeWhile_cons, ih]
  · intro hall
    induction socks with
    | nil => rfl
    | cons ws rest ih =>
      have hw : ws.sendFails = false := hall ws (List.mem_cons_self _ _)
      have hrest := ih (fun w hwmem => hall w (List.mem_cons_of_mem _ hwmem))
      simp [broadcastToMcpClients, hw, hrest]

/-- Witness for the amended C8: two healthy sockets both receive. -/
theorem broadcast_delivers_until_first_failure_witness :
    (broadcastToMcpClients [⟨"a", false⟩, ⟨"b", false⟩]).1 =
      ([⟨"a", false⟩, ⟨"b", false⟩] : List McpSocket).map McpSocket.clientId :=
  (broadcast_delivers_until_first_failure [⟨"a", false⟩, ⟨"b", false⟩]).2 (by decide)

end Rebrow
